import Mathlib

/-!
Verification of the AT-command emulator core (`fake_atc.py`).

Shallow embedding conventions:
* Python `str` values are modelled as `List Char` (`Str`); the protocol text
  is ASCII, where Python's `.upper()`, `.lower()`, `.strip()`, `.isdigit()`
  agree with the character-wise Lean operations used here.
* The JSON command table (a Python `dict`, which iterates in insertion
  order) is modelled as an association list `Table` in the same order.
* A Python function that can raise an uncaught exception is modelled with
  `Option`: `none` is the raised exception.
* The pseudo-terminal transport is modelled by an identity number that the
  reboot protocol increments; a write is recorded as a pair of the identity
  of the transport it went to and the bytes written.
-/

namespace FakeATC

/-- Python `str`, as a list of characters. -/
abbrev Str := List Char

/-- The opening-brace character (written via its code point). -/
def lbrace : Char := Char.ofNat 123

/-- The closing-brace character (written via its code point). -/
def rbrace : Char := Char.ofNat 125

/-- Python `s.strip()`: remove leading and trailing whitespace. -/
def strip (s : Str) : Str :=
  ((s.dropWhile Char.isWhitespace).reverse.dropWhile Char.isWhitespace).reverse

/-- Python `s.upper()` (ASCII). -/
def upper (s : Str) : Str := s.map Char.toUpper

/-- Python `s.lower()` (ASCII). -/
def lower (s : Str) : Str := s.map Char.toLower

/-- Split at the first occurrence of character `x`: Python `s.split(x, 1)`
when `x` occurs (`none` when it does not, i.e. `x not in s`). -/
def splitFirst (x : Char) : Str → Option (Str × Str)
  | [] => none
  | c :: cs =>
    if c = x then some ([], cs)
    else (splitFirst x cs).map (fun p => (c :: p.1, p.2))

/-- Python `s.split(x)` for a single-character separator `x`:
split at every occurrence; `"".split(x) = [""]`. -/
def splitOnChar (x : Char) : Str → List Str
  | [] => [[]]
  | c :: cs =>
    let r := splitOnChar x cs
    if c = x then [] :: r else (c :: r.headD []) :: r.tail

/-- Python `pat in s`: `pat` occurs as a contiguous substring of `s`. -/
def containsSub (pat : Str) : Str → Bool
  | [] => pat.isEmpty
  | c :: cs => pat.isPrefixOf (c :: cs) || containsSub pat cs

/-- Fuel-indexed worker for `replaceAll`; the fuel makes the recursion
structural so that concrete instances reduce in the kernel. -/
def replaceAllF (pat repl : Str) : Nat → Str → Str
  | _, [] => []
  | 0, s => s
  | fuel + 1, c :: cs =>
    if !pat.isEmpty && pat.isPrefixOf (c :: cs) then
      repl ++ replaceAllF pat repl fuel ((c :: cs).drop pat.length)
    else
      c :: replaceAllF pat repl fuel cs

/-- Python `s.replace(pat, repl)` for non-empty `pat` (every placeholder in
the program is brace-wrapped, hence non-empty): replace all non-overlapping
occurrences left to right.  `s.length` units of fuel always suffice because
each step consumes at least one character of `s`. -/
def replaceAll (pat repl s : Str) : Str := replaceAllF pat repl s.length s

/-- Model of `parse_at` (fake_atc.py lines 176-188): strip the line; an empty line
parses to an empty name; if `=` occurs, split on the first `=`, upper-case
the left part, and split the right part on `,` trimming each piece;
otherwise the whole stripped line upper-cased is the name. -/
def parse_at (line : Str) : Str × List Str :=
  if strip line = [] then ([], [])
  else
    match splitFirst '=' (strip line) with
    | some (name, arg_str) => (upper name, (splitOnChar ',' arg_str).map strip)
    | none => (upper (strip line), [])

/-- A value of the JSON command table: either a plain string template, or a
record `\x7b"delay": d, "resp": r\x7d` in which the `delay` field is
optional (`entry.get("delay", 0)`). -/
inductive Entry where
  | str (s : Str)
  | record (delay : Option Int) (resp : Str)
deriving DecidableEq

/-- The command table: keys to response definitions, in insertion order
(Python dicts iterate in insertion order). -/
abbrev Table := List (Str × Entry)

/-- Python `commands.get(name)`: first binding of `name`. -/
def lookup (t : Table) (k : Str) : Option Entry :=
  match t with
  | [] => none
  | (k', v) :: rest => if k' = k then some v else lookup rest k

/-- Model of `entry.get("delay", 0) if isinstance(entry, dict) else 0` (line 223). -/
def entryDelay : Entry → Int
  | .record d _ => d.getD 0
  | .str _ => 0

/-- Model of `entry["resp"] if isinstance(entry, dict) else entry` (line 224). -/
def entryResp : Entry → Str
  | .record _ r => r
  | .str s => s

/-- The placeholder token of a table key (line 230):
`"\x7b" + key.lower().replace("+", "") + "\x7d"`. -/
def placeholderOf (key : Str) : Str :=
  lbrace :: replaceAll ['+'] [] (lower key) ++ [rbrace]

/-- Argument substitution (lines 226-227): if the template contains the
literal token `{arg}` and the argument list is non-empty, replace every
occurrence with the first argument. -/
def argSubst (args : List Str) (resp : Str) : Str :=
  if containsSub "{arg}".data resp && !args.isEmpty then
    replaceAll "{arg}".data (args.headD []) resp
  else resp

/-- One iteration of the cross-reference loop (lines 229-232) for one table
binding: if the binding's placeholder occurs in the current text, Python
evaluates `resp.replace(placeholder, val)` with the raw stored `val`; when
`val` is a plain string this replaces every occurrence, and when `val` is a
dict record `str.replace` raises `TypeError` (modelled as `none`). -/
def substStep (resp : Str) (kv : Str × Entry) : Option Str :=
  if containsSub (placeholderOf kv.1) resp then
    match kv.2 with
    | .str v => some (replaceAll (placeholderOf kv.1) v resp)
    | .record _ _ => none
  else some resp

/-- The full cross-reference pass: `for key, val in commands.items()`
(line 229), over the whole table in insertion order. -/
def substAll (t : Table) (resp : Str) : Option Str :=
  match t with
  | [] => some resp
  | kv :: rest =>
    match substStep resp kv with
    | some r => substAll rest r
    | none => none

/-- The CRLF pair used to wrap every response. -/
def crlf : Str := "\r\n".data

/-- Model of `f"\r\n{resp}\r\n"`: the terminator-wrap applied to every response body. -/
def wrap (body : Str) : Str := crlf ++ body ++ crlf

/-- Python `s.isdigit()` restricted to ASCII: non-empty and all decimal
digits. -/
def isDigits (s : Str) : Bool := !s.isEmpty && s.all Char.isDigit

/-- Python `int(s)` for a string of decimal digits. -/
def digitsToNat (s : Str) : Nat :=
  s.foldl (fun n c => 10 * n + (c.toNat - 48)) 0

/-- Model of `build_response` (lines 191-234).  Returns `some (delay_ms, response)`,
or `none` when the Python code raises an uncaught `TypeError` (a
cross-referenced dict record, see `substStep`).  The reserved commands are
checked before the table: `AT+DELAY` parses its first argument as an
induced delay; `AT+CFUN=1,1` returns the in-band reboot code `-1`; any
other `AT+CFUN` is acknowledged.  A table miss yields `ERROR`; a hit takes
the entry's configured delay (default `0`), substitutes `{arg}`, then runs
the cross-reference pass. -/
def build_response (name : Str) (args : List Str) (commands : Table) :
    Option (Int × Str) :=
  if name = "AT+DELAY".data then
    match args with
    | a :: _ =>
      if isDigits a then some ((digitsToNat a : Int), wrap "OK".data)
      else some (0, wrap "ERROR".data)
    | [] => some (0, wrap "ERROR".data)
  else if name = "AT+CFUN".data ∧ args = ["1".data, "1".data] then
    some (-1, wrap "OK".data)
  else if name = "AT+CFUN".data then
    some (0, wrap "OK".data)
  else
    match lookup commands name with
    | none => some (0, wrap "ERROR".data)
    | some entry =>
      match substAll commands (argSubst args (entryResp entry)) with
      | some r => some (entryDelay entry, wrap r)
      | none => none

/-- The control signal of the specification's resolver interface. -/
inductive ControlSignal where
  | noSignal
  | reboot
deriving DecidableEq

/-- The main loop (line 352) treats a returned delay of `-1` as the reboot
control signal and any other value as a plain delayed reply. -/
def controlOf (d : Int) : ControlSignal :=
  if d = -1 then .reboot else .noSignal

/-- The delay the main loop actually applies before transmitting: the `-1`
reboot code never reaches `time.sleep` (lines 352-361), so its effective
delay is `0`. -/
def effectiveDelay (d : Int) : Int :=
  if d = -1 then 0 else d

/-- Index of the earliest CR or LF byte in the buffer:
`min(buffer.find(b"\r"), buffer.find(b"\n"))` over the indices that exist
(lines 335-337); `none` when the buffer holds neither. -/
def findTerm : Str → Option Nat
  | [] => none
  | c :: cs =>
    if c = '\r' ∨ c = '\n' then some 0
    else (findTerm cs).map (· + 1)

/-- The line framer (lines 335-339): repeatedly take the bytes before the
earliest terminator as a raw line and consume the terminator singly;
return the raw lines in order and the unterminated remainder. -/
def frameLines (buf : Str) : List Str × Str :=
  match hfind : findTerm buf with
  | none => ([], buf)
  | some i =>
    (buf.take i :: (frameLines (buf.drop (i + 1))).1,
     (frameLines (buf.drop (i + 1))).2)
termination_by buf.length
decreasing_by
  all_goals
    simp only [List.length_drop]
    rcases hbuf : buf with _ | ⟨c, cs⟩
    · rw [hbuf] at hfind; exact absurd hfind (by simp [findTerm])
    · simp only [List.length_cons]; omega

/-- The logical lines the engine acts on: each raw line stripped, empty
lines discarded (lines 342-346). -/
def logicalLines (raw : List Str) : List Str :=
  (raw.map strip).filter (fun l => !l.isEmpty)

/-- Engine-loop state: the byte accumulator, the identity of the live
transport (incremented by each reboot), and the ordered log of writes,
each tagged with the transport it was written to. -/
structure EngState where
  buffer : Str
  transport : Nat
  out : List (Nat × Str)
deriving DecidableEq

/-- Handling of one framed, non-empty line (lines 349-364): parse, resolve,
and either transmit on the current transport, or — on the in-band reboot
code `-1` — transmit on the current transport and then swap transports.
Returns the new transport identity and write log, or `none` when
`build_response` raises. -/
def stepLine (commands : Table) (tp : Nat) (out : List (Nat × Str))
    (line : Str) : Option (Nat × List (Nat × Str)) :=
  match build_response (parse_at line).1 (parse_at line).2 commands with
  | none => none
  | some (delay_ms, resp) =>
    if delay_ms = -1 then some (tp + 1, out ++ [(tp, resp)])
    else some (tp, out ++ [(tp, resp)])

/-- The inner `while` loop of `main` (lines 335-364): drain every complete
line from the buffer, skipping lines that strip to empty, processing the
rest with `stepLine`.  `none` models an uncaught exception escaping the
loop. -/
def processBuffer (commands : Table) (st : EngState) : Option EngState :=
  match hfind : findTerm st.buffer with
  | none => some st
  | some i =>
    if (strip (st.buffer.take i)).isEmpty then
      processBuffer commands ⟨st.buffer.drop (i + 1), st.transport, st.out⟩
    else
      match stepLine commands st.transport st.out (strip (st.buffer.take i)) with
      | none => none
      | some (tp, out) =>
        processBuffer commands ⟨st.buffer.drop (i + 1), tp, out⟩
termination_by st.buffer.length
decreasing_by
  all_goals
    simp only [List.length_drop]
    rcases hbuf : st.buffer with _ | ⟨c, cs⟩
    · rw [hbuf] at hfind; exact absurd hfind (by simp [findTerm])
    · simp only [List.length_cons]; omega

/-- Fuel-indexed version of the cross-reference pass, counting loop
iterations: `none` means the fuel ran out before the `for` loop finished,
`some r` that the loop finished with result `r` (`r = none` being the
raised `TypeError`). -/
def substAllFuel : Nat → Table → Str → Option (Option Str)
  | _, [], r => some (some r)
  | 0, _ :: _, _ => none
  | fuel + 1, kv :: rest, r =>
    match substStep r kv with
    | some r' => substAllFuel fuel rest r'
    | none => some none

/-- Example table for the substitution-order counterexample: the entry of
`AT+C` references `AT+A`, whose own text references `AT+B`. -/
def exTable : Table :=
  [("AT+A".data, Entry.str "{atb}".data),
   ("AT+B".data, Entry.str "x".data),
   ("AT+C".data, Entry.str "{ata}".data)]

/-- Example table in which a record entry is cross-referenced by a plain
string entry. -/
def recTable : Table :=
  [("AT+A".data, Entry.record (some 5) "v1".data),
   ("AT+B".data, Entry.str "see {ata}".data)]

/-- Example table whose two entries reference each other cyclically. -/
def cycTable : Table :=
  [("AT+A".data, Entry.str "{atb}".data),
   ("AT+B".data, Entry.str "{ata}".data)]

/-- Example table whose entry carries the configured delay `-1`. -/
def rbTable : Table :=
  [("AT+R".data, Entry.record (some (-1)) "boot".data)]

theorem controlOf_eq_reboot_iff (d : Int) :
    controlOf d = ControlSignal.reboot ↔ d = -1 := by
  unfold controlOf
  split_ifs with h
  · simp [h]
  · constructor
    · intro hc; cases hc
    · intro hc; exact absurd hc h

theorem mem_strip {c : Char} {s : Str} (h : c ∈ strip s) : c ∈ s := by
  unfold strip at h
  rw [List.mem_reverse] at h
  have h2 : c ∈ (s.dropWhile Char.isWhitespace).reverse :=
    (List.dropWhile_sublist _).subset h
  rw [List.mem_reverse] at h2
  exact (List.dropWhile_sublist _).subset h2

theorem splitFirst_eq_none {x : Char} {s : Str} (h : ∀ c ∈ s, c ≠ x) :
    splitFirst x s = none := by
  induction s with
  | nil => rfl
  | cons c cs ih =>
    simp only [splitFirst]
    rw [if_neg (h c (by simp)), ih (fun d hd => h d (by simp [hd]))]
    rfl

theorem splitFirst_of_append {x : Char} (pre post : Str)
    (h : ∀ c ∈ pre, c ≠ x) :
    splitFirst x (pre ++ x :: post) = some (pre, post) := by
  induction pre with
  | nil => simp [splitFirst]
  | cons c cs ih =>
    simp only [List.cons_append, splitFirst, List.append_eq]
    rw [if_neg (h c (by simp)), ih (fun d hd => h d (by simp [hd]))]
    rfl

/-- C9: a line without `=` parses to its trimmed upper-cased text with no
arguments; a line whose trimmed text is `pre ++ "=" ++ post` with no `=` in
`pre` (the split is at the first `=`) parses to the upper-cased `pre` as
command name, with the arguments obtained by splitting `post` on `,` and
trimming each piece. -/
theorem C9_parse_characterization (L : Str) :
    ((∀ c ∈ L, c ≠ '=') → parse_at L = (upper (strip L), [])) ∧
    (∀ pre post, strip L = pre ++ '=' :: post → (∀ c ∈ pre, c ≠ '=') →
      parse_at L = (upper pre, (splitOnChar ',' post).map strip)) := by
  constructor
  · intro h
    unfold parse_at
    by_cases hl : strip L = []
    · rw [if_pos hl, hl]; rfl
    · rw [if_neg hl, splitFirst_eq_none (fun c hc => h c (mem_strip hc))]
  · intro pre post hsplit hpre
    unfold parse_at
    have hne : strip L ≠ [] := by rw [hsplit]; simp
    rw [if_neg hne, hsplit, splitFirst_of_append pre post hpre]

/-- C9 witness: concrete instances of both branches. -/
theorem C9_parse_witness :
    parse_at "ati".data = ("ATI".data, []) ∧
    parse_at " name=a, b ,c ".data = ("NAME".data, ["a".data, "b".data, "c".data]) := by
  constructor
  · have h := (C9_parse_characterization "ati".data).1 (by decide)
    rw [h]; decide
  · have h := (C9_parse_characterization " name=a, b ,c ".data).2
      "name".data "a, b ,c".data (by decide) (by decide)
    rw [h]; decide

/-- C5: `AT+DELAY` with an all-digits first argument resolves, for every
table, to an `OK` body with the argument's decimal value as delay; a
non-numeric or missing first argument resolves to an `ERROR` body with
delay `0`.  The table is never consulted. -/
theorem C5_delay_resolution (args : List Str) (commands : Table) :
    (∀ a rest, args = a :: rest → isDigits a = true →
      build_response "AT+DELAY".data args commands =
        some ((digitsToNat a : Int), wrap "OK".data)) ∧
    (∀ a rest, args = a :: rest → isDigits a = false →
      build_response "AT+DELAY".data args commands =
        some (0, wrap "ERROR".data)) ∧
    (args = [] →
      build_response "AT+DELAY".data args commands =
        some (0, wrap "ERROR".data)) := by
  refine ⟨?_, ?_, ?_⟩
  · intro a rest ha hd
    subst ha
    unfold build_response
    rw [if_pos rfl]
    simp [hd]
  · intro a rest ha hd
    subst ha
    unfold build_response
    rw [if_pos rfl]
    simp [hd]
  · intro ha
    subst ha
    unfold build_response
    rw [if_pos rfl]

/-- C5 witness: concrete instances of the three branches. -/
theorem C5_delay_witness :
    build_response "AT+DELAY".data ["250".data] [] = some (250, wrap "OK".data) ∧
    build_response "AT+DELAY".data ["abc".data] [] = some (0, wrap "ERROR".data) ∧
    build_response "AT+DELAY".data [] [] = some (0, wrap "ERROR".data) := by
  refine ⟨?_, ?_, ?_⟩
  · have h := (C5_delay_resolution ["250".data] []).1 "250".data [] rfl (by decide)
    rw [h]; decide
  · exact (C5_delay_resolution ["abc".data] []).2.1 "abc".data [] rfl (by decide)
  · exact (C5_delay_resolution [] []).2.2 rfl

/-- C4: `AT+CFUN` with arguments exactly `["1","1"]` resolves, for every
table, to an `OK` body carrying the in-band reboot code `-1`, which the
engine loop reads as the Reboot control signal with effective delay `0`;
any other argument list resolves to an `OK` body with delay `0` and no
control signal. -/
theorem C4_cfun_resolution (args : List Str) (commands : Table) :
    (args = ["1".data, "1".data] →
      build_response "AT+CFUN".data args commands = some (-1, wrap "OK".data) ∧
      controlOf (-1) = ControlSignal.reboot ∧ effectiveDelay (-1) = 0) ∧
    (args ≠ ["1".data, "1".data] →
      build_response "AT+CFUN".data args commands = some (0, wrap "OK".data) ∧
      controlOf 0 = ControlSignal.noSignal ∧ effectiveDelay 0 = 0) := by
  constructor
  · intro ha
    subst ha
    refine ⟨?_, by decide, by decide⟩
    unfold build_response
    rw [if_neg (by decide), if_pos ⟨rfl, rfl⟩]
  · intro ha
    refine ⟨?_, by decide, by decide⟩
    unfold build_response
    rw [if_neg (by decide), if_neg (fun h => ha h.2), if_pos rfl]

/-- C4 witness: concrete instances of both branches, with a non-empty table
holding an `AT+CFUN` entry to check that the table is ignored. -/
theorem C4_cfun_witness :
    build_response "AT+CFUN".data ["1".data, "1".data]
      [("AT+CFUN".data, Entry.str "ignored".data)] = some (-1, wrap "OK".data) ∧
    build_response "AT+CFUN".data ["0".data]
      [("AT+CFUN".data, Entry.str "ignored".data)] = some (0, wrap "OK".data) := by
  constructor
  · exact ((C4_cfun_resolution ["1".data, "1".data] _).1 rfl).1
  · exact ((C4_cfun_resolution ["0".data] _).2 (by decide)).1

/-- C6: a non-reserved command that is not a table key resolves to an
`ERROR` body with delay `0` and no control signal; on a table hit, whenever
resolution returns at all, the returned delay is the entry's configured
delay (`0` for a plain string entry or a record without a delay field). -/
theorem C6_table_resolution (name : Str) (args : List Str) (commands : Table)
    (h1 : name ≠ "AT+DELAY".data) (h2 : name ≠ "AT+CFUN".data) :
    (lookup commands name = none →
      build_response name args commands = some (0, wrap "ERROR".data) ∧
      controlOf 0 = ControlSignal.noSignal) ∧
    (∀ e, lookup commands name = some e →
      (∃ body, build_response name args commands = some (entryDelay e, body)) ∨
      build_response name args commands = none) := by
  constructor
  · intro hmiss
    refine ⟨?_, by decide⟩
    unfold build_response
    rw [if_neg h1, if_neg (fun h => h2 h.1), if_neg h2, hmiss]
  · intro e he
    have hb : build_response name args commands =
        match substAll commands (argSubst args (entryResp e)) with
        | some r => some (entryDelay e, wrap r)
        | none => none := by
      unfold build_response
      rw [if_neg h1, if_neg (fun h => h2 h.1), if_neg h2, he]
    rw [hb]
    cases hs : substAll commands (argSubst args (entryResp e)) with
    | none => right; rfl
    | some r => left; exact ⟨wrap r, rfl⟩

/-- C6 witness: a miss on the empty table, and a hit whose record entry
carries delay 70. -/
theorem C6_table_witness :
    (build_response "ATZ".data [] [] = some (0, wrap "ERROR".data) ∧
      controlOf 0 = ControlSignal.noSignal) ∧
    (∃ body, build_response "ATI".data []
      [("ATI".data, Entry.record (some 70) "hi".data)] = some (70, body)) := by
  constructor
  · exact (C6_table_resolution "ATZ".data [] [] (by decide) (by decide)).1 rfl
  · have h := (C6_table_resolution "ATI".data []
      [("ATI".data, Entry.record (some 70) "hi".data)] (by decide) (by decide)).2
      (Entry.record (some 70) "hi".data) (by decide)
    rcases h with ⟨body, hb⟩ | hnone
    · exact ⟨body, hb⟩
    · exact absurd hnone (by decide)

/-- C10: whenever resolution returns at all, it returns the in-band reboot
code (delay `-1`, read by the engine loop as the Reboot control signal) if
and only if either the command is `AT+CFUN` with arguments exactly
`["1","1"]`, or the command is non-reserved and its table entry is a
record whose configured delay (unvalidated at load time) equals `-1`. -/
theorem C10_reboot_signal_iff (name : Str) (args : List Str)
    (commands : Table) (d : Int) (body : Str)
    (h : build_response name args commands = some (d, body)) :
    controlOf d = ControlSignal.reboot ↔
      (name = "AT+CFUN".data ∧ args = ["1".data, "1".data]) ∨
      (name ≠ "AT+DELAY".data ∧ name ≠ "AT+CFUN".data ∧
        ∃ del resp, lookup commands name = some (Entry.record del resp) ∧
          del.getD 0 = -1) := by
  rw [controlOf_eq_reboot_iff]
  by_cases h1 : name = "AT+DELAY".data
  · unfold build_response at h
    rw [if_pos h1] at h
    have hd : d ≠ -1 := by
      rcases args with _ | ⟨a, rest⟩
      · simp only [Option.some.injEq, Prod.mk.injEq] at h
        omega
      · have h' : (if isDigits a = true then
              some ((digitsToNat a : Int), wrap "OK".data)
            else some ((0 : Int), wrap "ERROR".data)) = some (d, body) := h
        split_ifs at h' <;>
          simp only [Option.some.injEq, Prod.mk.injEq] at h' <;> omega
    constructor
    · intro hc; exact absurd hc hd
    · rintro (⟨hcf, _⟩ | ⟨hnd, _⟩)
      · rw [h1] at hcf; exact absurd hcf (by decide)
      · exact absurd h1 hnd
  · unfold build_response at h
    rw [if_neg h1] at h
    by_cases h2 : name = "AT+CFUN".data
    · by_cases h3 : args = ["1".data, "1".data]
      · rw [if_pos ⟨h2, h3⟩] at h
        simp only [Option.some.injEq, Prod.mk.injEq] at h
        constructor
        · intro _; exact Or.inl ⟨h2, h3⟩
        · intro _; omega
      · rw [if_neg (fun hh => h3 hh.2), if_pos h2] at h
        simp only [Option.some.injEq, Prod.mk.injEq] at h
        constructor
        · intro hc; exfalso; omega
        · rintro (⟨_, hargs⟩ | ⟨_, hncf, _⟩)
          · exact absurd hargs h3
          · exact absurd h2 hncf
    · rw [if_neg (fun hh => h2 hh.1), if_neg h2] at h
      cases hl : lookup commands name with
      | none =>
        rw [hl] at h
        simp only [Option.some.injEq, Prod.mk.injEq] at h
        constructor
        · intro hc; exfalso; omega
        · rintro (⟨hcf, _⟩ | ⟨_, _, del', resp', hlk, _⟩)
          · exact absurd hcf h2
          · cases hlk
      | some e =>
        rw [hl] at h
        have h' : (match substAll commands (argSubst args (entryResp e)) with
            | some r => some (entryDelay e, wrap r)
            | none => none) = some (d, body) := h
        cases hs : substAll commands (argSubst args (entryResp e)) with
        | none => rw [hs] at h'; cases h'
        | some r =>
          rw [hs] at h'
          simp only [Option.some.injEq, Prod.mk.injEq] at h'
          cases e with
          | str s =>
            have hd : (0 : Int) = d := h'.1
            constructor
            · intro hc; exfalso; omega
            · rintro (⟨hcf, _⟩ | ⟨_, _, del', resp', hlk, _⟩)
              · exact absurd hcf h2
              · simp at hlk
          | record del v =>
            have hd : del.getD 0 = d := h'.1
            constructor
            · intro hc
              exact Or.inr ⟨h1, h2, del, v, rfl, hd.trans hc⟩
            · rintro (⟨hcf, _⟩ | ⟨_, _, del', resp', hlk, hneg⟩)
              · exact absurd hcf h2
              · simp only [Option.some.injEq, Entry.record.injEq] at hlk
                rw [← hd, hlk.1]
                exact hneg

/-- C10 witness: a table entry with configured delay `-1` triggers the
reboot signal without `AT+CFUN`. -/
theorem C10_reboot_signal_witness :
    controlOf (-1) = ControlSignal.reboot ↔
      ("AT+R".data = "AT+CFUN".data ∧ ([] : List Str) = ["1".data, "1".data]) ∨
      ("AT+R".data ≠ "AT+DELAY".data ∧ "AT+R".data ≠ "AT+CFUN".data ∧
        ∃ del resp, lookup rbTable "AT+R".data = some (Entry.record del resp) ∧
          del.getD 0 = -1) :=
  C10_reboot_signal_iff "AT+R".data [] rbTable (-1) (wrap "boot".data) (by decide)

/-- C8: the cross-reference pass always finishes after exactly one
iteration per table binding (`substAllFuel` with fuel equal to the table
length never runs out of fuel), for every table including cyclic ones; and
on the cyclic table the resolution of `AT+A` terminates with the
unresolved placeholder token of `AT+A` left visible in the output. -/
theorem C8_substitution_terminates :
    (∀ (commands : Table) (resp : Str),
      substAllFuel commands.length commands resp = some (substAll commands resp)) ∧
    build_response "AT+A".data [] cycTable = some (0, wrap "{ata}".data) ∧
    containsSub (placeholderOf "AT+A".data) (wrap "{ata}".data) = true := by
  refine ⟨?_, by decide, by decide⟩
  intro commands
  induction commands with
  | nil => intro resp; rfl
  | cons kv rest ih =>
    intro resp
    simp only [List.length_cons, substAllFuel, substAll]
    cases h : substStep resp kv with
    | none => rfl
    | some r => exact ih r

theorem substAll_append (a b : Table) (r : Str) :
    substAll (a ++ b) r =
      match substAll a r with
      | some r2 => substAll b r2
      | none => none := by
  induction a generalizing r with
  | nil => rfl
  | cons kv rest ih =>
    simp only [List.cons_append, substAll]
    cases h : substStep r kv with
    | none => rfl
    | some r2 => exact ih r2

/-- C1 counterexample: in `exTable`, resolving `AT+C` (template the
placeholder of `AT+A`) substitutes in `AT+A`'s raw text (the placeholder
of `AT+B`), and the later loop iteration for `AT+B` then replaces that
placeholder as well: the final output is `x` and the placeholder token of
`AT+B`, although it arrived by substitution, is not visible in the final
output — contradicting the claimed single-pass visibility guarantee. -/
theorem C1_substitution_counterexample :
    build_response "AT+C".data [] exTable = some (0, wrap "x".data) ∧
    containsSub (placeholderOf "AT+B".data) (wrap "x".data) = false ∧
    containsSub "{atb}".data (wrap "x".data) = false := by
  decide

/-- C1 (amended): on a table hit, the response is the entry's template
with `{arg}` substituted and then a single in-order pass over the whole
table (the looked-up key included); when the pass reaches a binding whose
placeholder occurs in the current text, a plain-string binding replaces
every occurrence with its raw stored text and the pass continues over the
*remaining* bindings only (so placeholders substituted in earlier in the
pass are replaced too when their key comes later in table order), and a
record binding aborts resolution (the `TypeError` of `str.replace`). -/
theorem C1_substitution_order (commands : Table) (name : Str)
    (args : List Str) (entry : Entry)
    (h1 : name ≠ "AT+DELAY".data) (h2 : name ≠ "AT+CFUN".data)
    (h3 : lookup commands name = some entry) :
    build_response name args commands =
      Option.map (fun r => (entryDelay entry, wrap r))
        (substAll commands (argSubst args (entryResp entry))) ∧
    (∀ pre key v post r, commands = pre ++ (key, Entry.str v) :: post →
      substAll pre (argSubst args (entryResp entry)) = some r →
      substAll commands (argSubst args (entryResp entry)) =
        substAll post
          (if containsSub (placeholderOf key) r then
            replaceAll (placeholderOf key) v r
          else r)) ∧
    (∀ pre key del v post r, commands = pre ++ (key, Entry.record del v) :: post →
      substAll pre (argSubst args (entryResp entry)) = some r →
      containsSub (placeholderOf key) r = true →
      substAll commands (argSubst args (entryResp entry)) = none) := by
  refine ⟨?_, ?_, ?_⟩
  · have hb : build_response name args commands =
        match substAll commands (argSubst args (entryResp entry)) with
        | some r => some (entryDelay entry, wrap r)
        | none => none := by
      unfold build_response
      rw [if_neg h1, if_neg (fun h => h2 h.1), if_neg h2, h3]
    rw [hb]
    cases substAll commands (argSubst args (entryResp entry)) with
    | none => rfl
    | some r => rfl
  · intro pre key v post r hc hpre
    subst hc
    rw [substAll_append, hpre]
    show substAll ((key, Entry.str v) :: post) r = _
    simp only [substAll, substStep]
    by_cases hin : containsSub (placeholderOf key) r
    · rw [if_pos hin, if_pos hin]
    · rw [if_neg hin, if_neg hin]
  · intro pre key del v post r hc hpre hin
    subst hc
    rw [substAll_append, hpre]
    show substAll ((key, Entry.record del v) :: post) r = _
    simp only [substAll, substStep]
    rw [if_pos hin]

/-- C1 witness: the amended characterization applied to `exTable`. -/
theorem C1_substitution_witness :
    build_response "AT+C".data [] exTable =
      Option.map (fun r => (entryDelay (Entry.str "{ata}".data), wrap r))
        (substAll exTable (argSubst [] (entryResp (Entry.str "{ata}".data)))) :=
  (C1_substitution_order exTable "AT+C".data [] (Entry.str "{ata}".data)
    (by decide) (by decide) (by decide)).1

/-- C3: the code bug at the failing input.  In `recTable` the entry of
`AT+B` is a plain string referencing `AT+A`, whose entry is a well-formed
record with a non-negative delay; resolving the recognized command `AT+B`
makes line 232 evaluate `str.replace` with the raw dict as replacement,
raising an uncaught `TypeError` (modelled as `none`) instead of any
textual reply — resolution is not exception-free.  Unknown commands do
resolve to `ERROR` (second conjunct). -/
theorem C3_record_reference_raises :
    build_response "AT+B".data [] recTable = none ∧
    build_response "NOSUCH".data [] recTable = some (0, wrap "ERROR".data) := by
  decide

theorem findTerm_some_lt {a : Str} {i : Nat} (h : findTerm a = some i) :
    i < a.length := by
  induction a generalizing i with
  | nil => simp [findTerm] at h
  | cons c cs ih =>
    simp only [findTerm] at h
    split_ifs at h with hc
    · cases h; simp only [List.length_cons]; omega
    · cases hfind : findTerm cs with
      | none => rw [hfind] at h; simp at h
      | some j =>
        rw [hfind] at h
        simp at h
        have := ih hfind
        simp only [List.length_cons]
        omega

theorem findTerm_append_some {a : Str} {i : Nat} (h : findTerm a = some i)
    (b : Str) : findTerm (a ++ b) = some i := by
  induction a generalizing i with
  | nil => simp [findTerm] at h
  | cons c cs ih =>
    simp only [findTerm, List.cons_append, List.append_eq] at h ⊢
    split_ifs at h ⊢ with hc
    · exact h
    · cases hfind : findTerm cs with
      | none => rw [hfind] at h; simp at h
      | some j =>
        rw [hfind] at h
        rw [ih hfind]
        exact h

theorem frameLines_of_none {a : Str} (h : findTerm a = none) :
    frameLines a = ([], a) := by
  unfold frameLines
  split
  · rfl
  · rename_i i hi
    rw [h] at hi
    cases hi

theorem frameLines_of_some {a : Str} {i : Nat} (h : findTerm a = some i) :
    frameLines a =
      (a.take i :: (frameLines (a.drop (i + 1))).1,
       (frameLines (a.drop (i + 1))).2) := by
  conv_lhs => unfold frameLines
  split
  · rename_i hi
    rw [h] at hi
    cases hi
  · rename_i j hj
    rw [h] at hj
    injection hj with hj
    subst hj
    rfl

theorem frameLines_append_aux (n : Nat) :
    ∀ a b : Str, a.length ≤ n →
      frameLines (a ++ b) =
        ((frameLines a).1 ++ (frameLines ((frameLines a).2 ++ b)).1,
         (frameLines ((frameLines a).2 ++ b)).2) := by
  induction n with
  | zero =>
    intro a b ha
    have hnil : a = [] := List.length_eq_zero.mp (Nat.le_zero.mp ha)
    subst hnil
    have h0 : frameLines ([] : Str) = ([], []) := frameLines_of_none rfl
    rw [List.nil_append, h0]
    simp
  | succ n ih =>
    intro a b ha
    cases hfind : findTerm a with
    | none =>
      rw [frameLines_of_none hfind]
      simp
    | some i =>
      have hlt := findTerm_some_lt hfind
      have hab := findTerm_append_some hfind b
      rw [frameLines_of_some hfind, frameLines_of_some hab]
      rw [List.take_append_of_le_length (Nat.le_of_lt hlt),
          List.drop_append_of_le_length hlt]
      have hrec := ih (a.drop (i + 1)) b (by simp only [List.length_drop]; omega)
      rw [hrec]
      simp

theorem frameLines_append (a b : Str) :
    frameLines (a ++ b) =
      ((frameLines a).1 ++ (frameLines ((frameLines a).2 ++ b)).1,
       (frameLines ((frameLines a).2 ++ b)).2) :=
  frameLines_append_aux a.length a b (Nat.le_refl _)

/-- C7: line framing is split-invariant.  For every character stream `s`
and every cut point `k`, framing the first half, then framing the
left-over remainder concatenated with the second half, yields the same
logical lines (stripped, with empty lines dropped) and the same final
unterminated remainder as framing the whole stream in one read. -/
theorem C7_framing_split_invariant (s : Str) (k : Nat) :
    logicalLines ((frameLines (s.take k)).1 ++
        (frameLines ((frameLines (s.take k)).2 ++ s.drop k)).1) =
      logicalLines (frameLines s).1 ∧
    (frameLines ((frameLines (s.take k)).2 ++ s.drop k)).2 =
      (frameLines s).2 := by
  have h := frameLines_append (s.take k) (s.drop k)
  rw [List.take_append_drop] at h
  rw [h]
  exact ⟨rfl, rfl⟩

theorem processBuffer_of_some {commands : Table} {st : EngState} {i : Nat}
    (h : findTerm st.buffer = some i) :
    processBuffer commands st =
      if (strip (st.buffer.take i)).isEmpty then
        processBuffer commands ⟨st.buffer.drop (i + 1), st.transport, st.out⟩
      else
        match stepLine commands st.transport st.out (strip (st.buffer.take i)) with
        | none => none
        | some (tp, out) =>
          processBuffer commands ⟨st.buffer.drop (i + 1), tp, out⟩ := by
  conv_lhs => unfold processBuffer
  split
  · rename_i hi
    rw [h] at hi
    cases hi
  · rename_i j hj
    rw [h] at hj
    injection hj with hj
    subst hj
    rfl

theorem build_response_cfun11 (commands : Table) :
    build_response "AT+CFUN".data ["1".data, "1".data] commands =
      some (-1, wrap "OK".data) := by
  unfold build_response
  rw [if_neg (by decide), if_pos ⟨rfl, rfl⟩]

theorem stepLine_cfun11 (commands : Table) (t : Nat)
    (out : List (Nat × Str)) :
    stepLine commands t out "AT+CFUN=1,1".data =
      some (t + 1, out ++ [(t, wrap "OK".data)]) := by
  unfold stepLine
  have hp : parse_at "AT+CFUN=1,1".data =
      ("AT+CFUN".data, ["1".data, "1".data]) := by decide
  rw [hp]
  rw [build_response_cfun11]
  rfl

/-- C2: when the buffer starts with a complete `AT+CFUN=1,1` line, the
engine transmits that command's `OK` response on the current transport,
swaps to the next transport, and then processes whatever was already
buffered behind it exactly as a fresh run on the new transport — every
buffered-but-unprocessed line is still parsed, resolved, and its response
delivered exactly once, on the new transport. -/
theorem C2_reboot_preserves_buffered (commands : Table) (t : Nat)
    (out0 : List (Nat × Str)) (rest : Str) :
    processBuffer commands ⟨"AT+CFUN=1,1\r".data ++ rest, t, out0⟩ =
      processBuffer commands ⟨rest, t + 1, out0 ++ [(t, wrap "OK".data)]⟩ := by
  have hpre : findTerm "AT+CFUN=1,1\r".data = some 11 := by decide
  have hfind : findTerm ("AT+CFUN=1,1\r".data ++ rest) = some 11 :=
    findTerm_append_some hpre rest
  rw [processBuffer_of_some hfind]
  have htake : ("AT+CFUN=1,1\r".data ++ rest).take 11 =
      "AT+CFUN=1,1\r".data.take 11 :=
    List.take_append_of_le_length (by decide)
  have hdrop : ("AT+CFUN=1,1\r".data ++ rest).drop (11 + 1) = rest := by
    have hlen : ("AT+CFUN=1,1\r".data).length = 11 + 1 := by decide
    rw [← hlen, List.drop_left]
  rw [htake, hdrop]
  have hline : strip ("AT+CFUN=1,1\r".data.take 11) = "AT+CFUN=1,1".data := by
    decide
  rw [hline]
  rw [if_neg (by decide)]
  rw [stepLine_cfun11]

end FakeATC
